import Mathlib

/-!
Verification model of the `leveldb::ThreadPool` class from
`util/threadpool.h` (Meggie4/leveldb-partnercompaction).

The pool is embedded as a labelled transition system.  The shared fields of
the `ThreadPool` object (`queue`, `jobs_left`, `bailout`, `finished`) are
fields of `Config`; each worker thread is a control state following the
body of `Task()` / `next_job()`; the thread calling `JoinAll` / `AddJob` /
the destructor is the controller, whose program counter follows the body of
`JoinAll`; a further client thread that may call `WaitAll` is modelled with
a fine-grained view of its `condition_variable::wait` (predicate check,
pre-block window, blocked), because `Task()` performs `--jobs_left;
wait_var.notify_one();` without holding `wait_mutex`, so the interleaving
between the predicate check and the block matters.

Submitted callables are identified by their submission index (`nextId`);
the outcome of callable `i` (normal return value or raised error, as
captured by the `std::packaged_task` the code wraps every callable in) is
given by an environment `env : Nat → Except String Nat` fixed for a run.
`slots` models the futures' shared states: `slots[i] = none` until job `i`
has run, then `some (env i)`.

Ghost fields (`nextId`, `dequeued`, `synthetic`, `finishedJobs`,
`execLog`) record history and change nothing observable.
-/

namespace ThreadPoolModel

/-- A unit of work held by a worker: either the real job submitted with
index `id`, or the synthetic no-op (`res = []{}`) that `next_job` injects
while bailing out. -/
inductive Job where
  | real (id : Nat)
  | noop
deriving DecidableEq, Repr

/-- Control state of one worker thread, following `Task()`:
`atLoop` = about to test `!bailout` at the top of the `while`;
`inNext` = inside `next_job()`, at the `job_available_var` wait;
`hasJob j` = `next_job()` returned `j`, about to run it, decrement
`jobs_left` and notify `wait_var`; `exited` = left the loop. -/
inductive WorkerState where
  | atLoop
  | inNext
  | hasJob (j : Job)
  | exited
deriving DecidableEq, Repr

/-- Control state of the client thread calling `WaitAll()`, with the
condition-variable wait split into its atomic pieces:
`wChecking` holds `wait_mutex` and is about to read `jobs_left` in the
predicate; `wPreBlock` has read a non-zero value and has not yet performed
the release-and-block; `wBlocked` is blocked on `wait_var` (only a
`notify` can move it back to `wChecking`); `wDone` means `WaitAll`
returned. -/
inductive WaiterState where
  | wIdle
  | wChecking
  | wPreBlock
  | wBlocked
  | wDone
deriving DecidableEq, Repr

/-- Program counter of the thread running `JoinAll` (directly or from the
destructor): `cIdle` = not inside `JoinAll`; `jWait` = inside the
`WaitAll()` call made when `WaitForAll` holds; `jBail` = about to execute
`bailout = true`; `jJoin` = joining the worker threads; `jFin` = about to
execute `finished = true` and return. -/
inductive CtrlState where
  | cIdle
  | jWait
  | jBail
  | jJoin
  | jFin
deriving DecidableEq, Repr

instance : DecidableEq (Except String Nat) := fun x y =>
  match x, y with
  | .ok a, .ok b =>
      if h : a = b then .isTrue (by rw [h]) else .isFalse (by simp [h])
  | .ok _, .error _ => .isFalse (by simp)
  | .error _, .ok _ => .isFalse (by simp)
  | .error e, .error f =>
      if h : e = f then .isTrue (by rw [h]) else .isFalse (by simp [h])

/-- One configuration of the whole system. -/
structure Config where
  /-- Field `std::list<std::function<void()>> queue`, as the submission indices
  of the queued jobs, head = front. -/
  queue : List Nat
  /-- Field `std::atomic_int jobs_left`. -/
  jobs_left : Int
  /-- Field `std::atomic_bool bailout`. -/
  bailout : Bool
  /-- Field `std::atomic_bool finished`. -/
  finished : Bool
  /-- Field `int threadcount`, as stored by the constructor. -/
  threadcount : Int
  /-- the worker threads created by the constructor. -/
  workers : List WorkerState
  /-- the `JoinAll`-calling thread. -/
  ctrl : CtrlState
  /-- the `WaitAll`-calling client thread. -/
  waiter : WaiterState
  /-- futures: result slot of each submitted job, indexed by submission
  index; `none` = not yet populated. -/
  slots : List (Option (Except String Nat))
  /-- ghost: next submission index = number of jobs accepted by `AddJob`. -/
  nextId : Nat
  /-- ghost: submission indices of really dequeued jobs, in dequeue order. -/
  dequeued : List Nat
  /-- ghost: number of synthetic no-op jobs injected by `next_job`. -/
  synthetic : Nat
  /-- ghost: number of jobs whose execution finished (the `--jobs_left`
  in `Task()` ran), synthetic ones included. -/
  finishedJobs : Nat
  /-- ghost: jobs in order of completed execution. -/
  execLog : List Job
deriving DecidableEq, Repr

/-- The configuration produced by the constructor body for a non-negative
`threadcount` `n`: `jobs_left(0)`, `bailout(false)`, `finished(false)`,
and `n` threads each starting `Task()`. -/
def mkConfig (n : Nat) : Config where
  queue := []
  jobs_left := 0
  bailout := false
  finished := false
  threadcount := n
  workers := List.replicate n .atLoop
  ctrl := .cIdle
  waiter := .wIdle
  slots := []
  nextId := 0
  dequeued := []
  synthetic := 0
  finishedJobs := 0
  execLog := []

/-- Constructor `ThreadPool::ThreadPool(int threadcount)`.  The constructor body
performs no validation of `threadcount`: it stores it, calls
`threads.resize(threadcount)` and starts one `Task()` thread per slot.
For a negative argument the `int → size_type` conversion makes
`resize` request a huge size and the construction aborts with a length
error (modelled as `none`); for any `n ≥ 0`, including `0`, construction
succeeds. -/
def threadPoolNew (threadcount : Int) : Option Config :=
  if 0 ≤ threadcount then some (mkConfig threadcount.toNat) else none

/-- Method `ThreadPool::Size()`: `return threadcount;` (as an unsigned). -/
def Size (c : Config) : Nat :=
  c.threadcount.toNat

/-- Method `ThreadPool::JobsRemaining()`: `return queue.size();`. -/
def JobsRemaining (c : Config) : Nat :=
  c.queue.length

/-- The effect of `ThreadPool::AddJob` on the shared state: append the
wrapped job at the back of `queue`, `++jobs_left`, notify
`job_available_var` (a worker wake-up hint, represented by enabledness of
the dequeue steps).  The body contains no check of `finished` or
`bailout`.  A fresh `none` future slot is registered for the new job. -/
def addJobFn (c : Config) : Config :=
  { c with
    queue := c.queue ++ [c.nextId]
    jobs_left := c.jobs_left + 1
    slots := c.slots ++ [none]
    nextId := c.nextId + 1 }

/-- Effect of `wait_var.notify_one()`: wakes the waiter only if it is actually
blocked on the condition variable; a notification arriving while the
waiter is between its predicate check and the block is lost. -/
def wakeOne (s : WaiterState) : WaiterState :=
  match s with
  | .wBlocked => .wChecking
  | s => s

/-- Writing a job's outcome into its future slot: a real job `id` stores
`env id` (the callable's return value or its captured error — the
`std::packaged_task` wrapper stores either into the shared state); the
synthetic no-op touches no slot. -/
def writeSlot (env : Nat → Except String Nat) (slots : List (Option (Except String Nat))) :
    Job → List (Option (Except String Nat))
  | .real id => slots.set id (some (env id))
  | .noop => slots

/-- The effect of one worker finishing the job it holds: run it (populate
its slot), `--jobs_left`, `wait_var.notify_one()`, and return to the top
of the `while` loop. -/
def completeFn (env : Nat → Except String Nat) (c : Config) (w : Nat) (j : Job) : Config :=
  { c with
    workers := c.workers.set w .atLoop
    jobs_left := c.jobs_left - 1
    slots := writeSlot env c.slots j
    finishedJobs := c.finishedJobs + 1
    execLog := c.execLog ++ [j]
    waiter := wakeOne c.waiter }

/-- Semantics of `std::future::get()` on the handle returned by `AddJob` for job `id`:
blocks until the slot is populated, then yields the stored value or
re-raises the stored error.  `none` = would still block. -/
def futureGet (c : Config) (id : Nat) : Option (Except String Nat) :=
  match c.slots.get? id with
  | some s => s
  | none => none

/-- Labels of the transition system. -/
inductive Label where
  | addJob
  | loopCont (w : Nat)
  | loopExit (w : Nat)
  | deqReal (w : Nat) (j : Nat)
  | deqSyn (w : Nat)
  | complete (w : Nat)
  | callJoin (drain : Bool)
  | joinNoop (drain : Bool)
  | callDtor
  | dtorNoop
  | waitIdleDone
  | setBailout
  | joinedAll
  | retJoin
  | wCall
  | wFast
  | wCheckZero
  | wCheckPos
  | wBlock
deriving DecidableEq, Repr

/-- One atomic step of the system.  Each constructor embeds one atomic
action of the C++ source (`util/threadpool.h`), named in its comment. -/
inductive Step (env : Nat → Except String Nat) : Config → Label → Config → Prop
  /-- Step of `AddJob`: under `queue_mutex`, `queue.emplace_back(...)`,
  `++jobs_left`, `job_available_var.notify_one()`.  No precondition: the
  code never consults `finished` or `bailout` here. -/
  | addJob (c : Config) :
      Step env c .addJob (addJobFn c)
  /-- Step of `Task()`: the `while(!bailout)` test reads `false`, the worker calls
  `next_job()`. -/
  | loopCont (c : Config) (w : Nat)
      (hw : c.workers.get? w = some .atLoop) (hb : c.bailout = false) :
      Step env c (.loopCont w) { c with workers := c.workers.set w .inNext }
  /-- Step of `Task()`: the `while(!bailout)` test reads `true`, the worker leaves
  the loop and its thread ends. -/
  | loopExit (c : Config) (w : Nat)
      (hw : c.workers.get? w = some .atLoop) (hb : c.bailout = true) :
      Step env c (.loopExit w) { c with workers := c.workers.set w .exited }
  /-- Step of `next_job()`, non-bailout branch: the wait predicate
  `queue.size() || bailout` holds because the queue is non-empty, and
  `!bailout`, so the head job is popped (`res = queue.front();
  queue.pop_front();`). -/
  | deqReal (c : Config) (w : Nat) (j : Nat) (rest : List Nat)
      (hw : c.workers.get? w = some .inNext) (hb : c.bailout = false)
      (hq : c.queue = j :: rest) :
      Step env c (.deqReal w j)
        { c with
          queue := rest
          workers := c.workers.set w (.hasJob (.real j))
          dequeued := c.dequeued ++ [j] }
  /-- Step of `next_job()`, bailout branch: `bailout` is observed `true`, so the
  queue is left untouched and a no-op job is injected: `res = []{};
  ++jobs_left;`. -/
  | deqSyn (c : Config) (w : Nat)
      (hw : c.workers.get? w = some .inNext) (hb : c.bailout = true) :
      Step env c (.deqSyn w)
        { c with
          jobs_left := c.jobs_left + 1
          workers := c.workers.set w (.hasJob .noop)
          synthetic := c.synthetic + 1 }
  /-- Step of `Task()`: `next_job()();` runs the job (the `packaged_task` stores
  the callable's value or captured error in the future's shared state),
  then `--jobs_left; wait_var.notify_one();` — the decrement and the
  notification are performed without holding `wait_mutex`. -/
  | complete (c : Config) (w : Nat) (j : Job)
      (hw : c.workers.get? w = some (.hasJob j)) :
      Step env c (.complete w) (completeFn env c w j)
  /-- Step of `JoinAll(WaitForAll)` entered with `finished == false`: with
  `WaitForAll` true control goes into `WaitAll()` first, otherwise it is
  already at `bailout = true`. -/
  | callJoin (c : Config) (drain : Bool)
      (hc : c.ctrl = .cIdle) (hf : c.finished = false) :
      Step env c (.callJoin drain) { c with ctrl := if drain then .jWait else .jBail }
  /-- Step of `JoinAll` entered with `finished == true`: the whole body is
  skipped and the call returns at once, changing nothing. -/
  | joinNoop (c : Config) (drain : Bool)
      (hc : c.ctrl = .cIdle) (hf : c.finished = true) :
      Step env c (.joinNoop drain) c
  /-- Step of `~ThreadPool()`: the destructor body is exactly `JoinAll();`, whose
  defaulted parameter is `WaitForAll = true`; entered with
  `finished == false` it goes into `WaitAll()`. -/
  | callDtor (c : Config)
      (hc : c.ctrl = .cIdle) (hf : c.finished = false) :
      Step env c .callDtor { c with ctrl := .jWait }
  /-- Step of `~ThreadPool()` on an already-finished pool: `JoinAll()` skips its
  body. -/
  | dtorNoop (c : Config)
      (hc : c.ctrl = .cIdle) (hf : c.finished = true) :
      Step env c .dtorNoop c
  /-- The `WaitAll()` call inside `JoinAll` returns: both its exits (the
  `if (jobs_left > 0)` fast path and the predicate
  `jobs_left == 0` of `wait_var.wait`) require an observation of
  `jobs_left` that is not positive. -/
  | waitIdleDone (c : Config)
      (hc : c.ctrl = .jWait) (hz : c.jobs_left ≤ 0) :
      Step env c .waitIdleDone { c with ctrl := .jBail }
  /-- Step of `JoinAll`: `bailout = true; job_available_var.notify_all();`. -/
  | setBailout (c : Config)
      (hc : c.ctrl = .jBail) :
      Step env c .setBailout { c with bailout := true, ctrl := .jJoin }
  /-- Step of `JoinAll`: the `for` loop of `x.join()` calls returns only once
  every worker thread has exited its loop. -/
  | joinedAll (c : Config)
      (hc : c.ctrl = .jJoin) (hx : ∀ w ∈ c.workers, w = .exited) :
      Step env c .joinedAll { c with ctrl := .jFin }
  /-- Step of `JoinAll`: `finished = true;` and the call returns. -/
  | retJoin (c : Config)
      (hc : c.ctrl = .jFin) :
      Step env c .retJoin { c with finished := true, ctrl := .cIdle }
  /-- Step of `WaitAll()` by the client thread: the `if (jobs_left > 0)` test
  succeeds, `wait_mutex` is locked and the wait predicate is about to be
  evaluated. -/
  | wCall (c : Config)
      (hc : c.waiter = .wIdle) (hp : 0 < c.jobs_left) :
      Step env c .wCall { c with waiter := .wChecking }
  /-- Step of `WaitAll()` by the client thread: the `if (jobs_left > 0)` test
  fails and the call returns immediately. -/
  | wFast (c : Config)
      (hc : c.waiter = .wIdle) (hp : c.jobs_left ≤ 0) :
      Step env c .wFast { c with waiter := .wDone }
  /-- Step of `wait_var.wait(lk, pred)`: the predicate reads `jobs_left == 0`,
  the wait ends and `WaitAll` returns. -/
  | wCheckZero (c : Config)
      (hc : c.waiter = .wChecking) (hz : c.jobs_left = 0) :
      Step env c .wCheckZero { c with waiter := .wDone }
  /-- Step of `wait_var.wait(lk, pred)`: the predicate reads a non-zero
  `jobs_left`; the thread is now committed to block but has not yet
  performed the atomic release-and-block. -/
  | wCheckPos (c : Config)
      (hc : c.waiter = .wChecking) (hz : c.jobs_left ≠ 0) :
      Step env c .wCheckPos { c with waiter := .wPreBlock }
  /-- Step of `wait_var.wait(lk, pred)`: the release-and-block is performed; from
  now on only a notification can resume the thread. -/
  | wBlock (c : Config)
      (hc : c.waiter = .wPreBlock) :
      Step env c .wBlock { c with waiter := .wBlocked }

/-- A finite run of the system, recording its labels. -/
inductive Trace (env : Nat → Except String Nat) : Config → List Label → Config → Prop
  | nil (c : Config) : Trace env c [] c
  | cons {c c' c'' : Config} {l : Label} {ls : List Label}
      (hs : Step env c l c') (ht : Trace env c' ls c'') :
      Trace env c (l :: ls) c''

/-- A worker currently executing a job (between `next_job()` returning and
the `--jobs_left`). -/
def busy : WorkerState → Bool
  | .hasJob _ => true
  | _ => false

/-- Number of workers currently executing a job. -/
def inFlight (c : Config) : Nat := c.workers.countP busy

/-- The real job a worker currently holds, if any. -/
def heldSlot : WorkerState → Option Nat
  | .hasJob (.real id) => some id
  | _ => none

/-- The real jobs currently held by the workers, in worker order. -/
def heldIds (ws : List WorkerState) : List Nat := ws.filterMap heldSlot

/-- The submission indices of the real jobs in an execution log. -/
def realLog (l : List Job) : List Nat :=
  l.filterMap fun j => match j with | .real id => some id | .noop => none

/-- All worker threads have left their loops. -/
def allExited (c : Config) : Prop := ∀ w ∈ c.workers, w = .exited

/-- The inductive invariant of the pool: queue/ghost bookkeeping, the
`jobs_left` accounting equation, future-slot registration, and the
lifecycle facts used by the shutdown claims. -/
structure Inv (c : Config) : Prop where
  hqueue : c.dequeued ++ c.queue = List.range c.nextId
  hflight : c.finishedJobs + inFlight c = c.dequeued.length + c.synthetic
  hleft : c.jobs_left = (c.nextId : Int) + (c.synthetic : Int) - (c.finishedJobs : Int)
  hslots : c.slots.length = c.nextId
  hheld : ∀ w id, c.workers.get? w = some (.hasJob (.real id)) → id ∈ c.dequeued
  hfin : c.ctrl = .jFin → allExited c
  hdone : c.finished = true → allExited c
  hone : c.workers.length = 1 → realLog c.execLog ++ heldIds c.workers = c.dequeued

theorem countP_set_of_get {α : Type} (p : α → Bool) (l : List α) (w : Nat) (a b : α)
    (h : l.get? w = some a) :
    (l.set w b).countP p + (if p a then 1 else 0)
      = l.countP p + (if p b then 1 else 0) := by
  induction l generalizing w with
  | nil => simp at h
  | cons x xs ih =>
    cases w with
    | zero =>
      rw [List.get?_cons_zero] at h
      injection h with h
      subst h
      simp [List.countP_cons]
      omega
    | succ n =>
      rw [List.get?_cons_succ] at h
      have := ih n h
      simp [List.countP_cons, List.set]
      omega

theorem allExited_get {c : Config} {w : Nat} {s : WorkerState}
    (h : allExited c) (hw : c.workers.get? w = some s) : s = .exited :=
  h s (List.get?_mem hw)

theorem inv_init (n : Nat) : Inv (mkConfig n) := by
  refine ⟨rfl, ?_, rfl, rfl, ?_, ?_, ?_, ?_⟩
  · simp [mkConfig, inFlight, List.countP_eq_zero, busy]
  · intro w id h
    have := List.get?_mem h
    have h2 := List.eq_of_mem_replicate this
    simp at h2
  · intro h
    simp [mkConfig] at h
  · intro h
    simp [mkConfig] at h
  · intro h
    cases n with
    | zero => simp [mkConfig] at h
    | succ m =>
      simp [mkConfig] at h
      subst h
      simp [mkConfig, realLog, heldIds, heldSlot]

theorem get?_singleton {α : Type} {a s : α} {w : Nat} (h : [a].get? w = some s) :
    w = 0 ∧ a = s := by
  cases w with
  | zero =>
    simp at h
    exact ⟨rfl, h⟩
  | succ n => simp at h

theorem inv_addJob {c : Config} (hi : Inv c) : Inv (addJobFn c) := by
  obtain ⟨h1, h2, h3, h4, h5, h6, h7, h8⟩ := hi
  refine ⟨?_, h2, ?_, ?_, h5, h6, h7, h8⟩
  · show c.dequeued ++ (c.queue ++ [c.nextId]) = List.range (c.nextId + 1)
    rw [List.range_succ, ← h1, List.append_assoc]
  · show c.jobs_left + 1 = ((c.nextId + 1 : Nat) : Int) + (c.synthetic : Int) - (c.finishedJobs : Int)
    push_cast
    omega
  · show (c.slots ++ [none]).length = c.nextId + 1
    simp [h4]

theorem inv_loopCont {c : Config} {w : Nat} (hi : Inv c)
    (hw : c.workers.get? w = some .atLoop) :
    Inv { c with workers := c.workers.set w .inNext } := by
  obtain ⟨h1, h2, h3, h4, h5, h6, h7, h8⟩ := hi
  have hcnt := countP_set_of_get busy c.workers w _ .inNext hw
  simp [busy] at hcnt
  have h2' : c.finishedJobs + c.workers.countP busy = c.dequeued.length + c.synthetic := h2
  refine ⟨h1, ?_, h3, h4, ?_, ?_, ?_, ?_⟩
  · show c.finishedJobs + (c.workers.set w .inNext).countP busy
      = c.dequeued.length + c.synthetic
    omega
  · intro v id hv
    rw [List.get?_set] at hv
    by_cases hvw : w = v
    · subst hvw
      rw [if_pos rfl, hw] at hv
      simp at hv
    · rw [if_neg hvw] at hv
      exact h5 v id hv
  · intro hc
    exact absurd (allExited_get (h6 hc) hw) (by decide)
  · intro hc
    exact absurd (allExited_get (h7 hc) hw) (by decide)
  · intro hlen
    rw [List.length_set] at hlen
    obtain ⟨a, ha⟩ := List.length_eq_one.mp hlen
    rw [ha] at hw ⊢
    obtain ⟨hw0, has⟩ := get?_singleton hw
    subst hw0
    subst has
    have := h8 hlen
    rw [ha] at this
    simpa [heldIds, heldSlot] using this

theorem inv_loopExit {c : Config} {w : Nat} (hi : Inv c)
    (hw : c.workers.get? w = some .atLoop) :
    Inv { c with workers := c.workers.set w .exited } := by
  obtain ⟨h1, h2, h3, h4, h5, h6, h7, h8⟩ := hi
  have hcnt := countP_set_of_get busy c.workers w _ .exited hw
  simp [busy] at hcnt
  have h2' : c.finishedJobs + c.workers.countP busy = c.dequeued.length + c.synthetic := h2
  refine ⟨h1, ?_, h3, h4, ?_, ?_, ?_, ?_⟩
  · show c.finishedJobs + (c.workers.set w .exited).countP busy
      = c.dequeued.length + c.synthetic
    omega
  · intro v id hv
    rw [List.get?_set] at hv
    by_cases hvw : w = v
    · subst hvw
      rw [if_pos rfl, hw] at hv
      simp at hv
    · rw [if_neg hvw] at hv
      exact h5 v id hv
  · intro hc
    exact absurd (allExited_get (h6 hc) hw) (by decide)
  · intro hc
    exact absurd (allExited_get (h7 hc) hw) (by decide)
  · intro hlen
    rw [List.length_set] at hlen
    obtain ⟨a, ha⟩ := List.length_eq_one.mp hlen
    rw [ha] at hw ⊢
    obtain ⟨hw0, has⟩ := get?_singleton hw
    subst hw0
    subst has
    have := h8 hlen
    rw [ha] at this
    simpa [heldIds, heldSlot] using this

theorem inv_deqReal {c : Config} {w j : Nat} {rest : List Nat} (hi : Inv c)
    (hw : c.workers.get? w = some .inNext) (hq : c.queue = j :: rest) :
    Inv { c with
          queue := rest
          workers := c.workers.set w (.hasJob (.real j))
          dequeued := c.dequeued ++ [j] } := by
  obtain ⟨h1, h2, h3, h4, h5, h6, h7, h8⟩ := hi
  have hcnt := countP_set_of_get busy c.workers w _ (.hasJob (.real j)) hw
  simp [busy] at hcnt
  have h2' : c.finishedJobs + c.workers.countP busy = c.dequeued.length + c.synthetic := h2
  refine ⟨?_, ?_, h3, h4, ?_, ?_, ?_, ?_⟩
  · show (c.dequeued ++ [j]) ++ rest = List.range c.nextId
    rw [List.append_assoc, List.singleton_append, ← hq, h1]
  · show c.finishedJobs + (c.workers.set w (.hasJob (.real j))).countP busy
      = (c.dequeued ++ [j]).length + c.synthetic
    rw [List.length_append]
    simp only [List.length_singleton]
    omega
  · intro v id hv
    rw [List.get?_set] at hv
    by_cases hvw : w = v
    · subst hvw
      rw [if_pos rfl, hw] at hv
      simp at hv
      subst hv
      simp
    · rw [if_neg hvw] at hv
      exact List.mem_append_left _ (h5 v id hv)
  · intro hc
    exact absurd (allExited_get (h6 hc) hw) (by decide)
  · intro hc
    exact absurd (allExited_get (h7 hc) hw) (by decide)
  · intro hlen
    rw [List.length_set] at hlen
    obtain ⟨a, ha⟩ := List.length_eq_one.mp hlen
    rw [ha] at hw ⊢
    obtain ⟨hw0, has⟩ := get?_singleton hw
    subst hw0
    subst has
    have := h8 hlen
    rw [ha] at this
    simp [heldIds, heldSlot] at this ⊢
    rw [this]

theorem inv_deqSyn {c : Config} {w : Nat} (hi : Inv c)
    (hw : c.workers.get? w = some .inNext) :
    Inv { c with
          jobs_left := c.jobs_left + 1
          workers := c.workers.set w (.hasJob .noop)
          synthetic := c.synthetic + 1 } := by
  obtain ⟨h1, h2, h3, h4, h5, h6, h7, h8⟩ := hi
  have hcnt := countP_set_of_get busy c.workers w _ (.hasJob .noop) hw
  simp [busy] at hcnt
  have h2' : c.finishedJobs + c.workers.countP busy = c.dequeued.length + c.synthetic := h2
  refine ⟨h1, ?_, ?_, h4, ?_, ?_, ?_, ?_⟩
  · show c.finishedJobs + (c.workers.set w (.hasJob .noop)).countP busy
      = c.dequeued.length + (c.synthetic + 1)
    omega
  · show c.jobs_left + 1
      = (c.nextId : Int) + ((c.synthetic + 1 : Nat) : Int) - (c.finishedJobs : Int)
    push_cast
    omega
  · intro v id hv
    rw [List.get?_set] at hv
    by_cases hvw : w = v
    · subst hvw
      rw [if_pos rfl, hw] at hv
      simp at hv
    · rw [if_neg hvw] at hv
      exact h5 v id hv
  · intro hc
    exact absurd (allExited_get (h6 hc) hw) (by decide)
  · intro hc
    exact absurd (allExited_get (h7 hc) hw) (by decide)
  · intro hlen
    rw [List.length_set] at hlen
    obtain ⟨a, ha⟩ := List.length_eq_one.mp hlen
    rw [ha] at hw ⊢
    obtain ⟨hw0, has⟩ := get?_singleton hw
    subst hw0
    subst has
    have := h8 hlen
    rw [ha] at this
    simpa [heldIds, heldSlot] using this

theorem inv_complete {env : Nat → Except String Nat} {c : Config} {w : Nat} {j : Job}
    (hi : Inv c) (hw : c.workers.get? w = some (.hasJob j)) :
    Inv (completeFn env c w j) := by
  obtain ⟨h1, h2, h3, h4, h5, h6, h7, h8⟩ := hi
  have hcnt := countP_set_of_get busy c.workers w _ .atLoop hw
  simp [busy] at hcnt
  have h2' : c.finishedJobs + c.workers.countP busy = c.dequeued.length + c.synthetic := h2
  refine ⟨h1, ?_, ?_, ?_, ?_, ?_, ?_, ?_⟩
  · show (c.finishedJobs + 1) + (c.workers.set w .atLoop).countP busy
      = c.dequeued.length + c.synthetic
    omega
  · show c.jobs_left - 1
      = (c.nextId : Int) + (c.synthetic : Int) - ((c.finishedJobs + 1 : Nat) : Int)
    push_cast
    omega
  · show (writeSlot env c.slots j).length = c.nextId
    cases j with
    | real id => simpa [writeSlot] using h4
    | noop => exact h4
  · intro v id hv
    replace hv : (c.workers.set w .atLoop).get? v = some (.hasJob (.real id)) := hv
    show id ∈ c.dequeued
    rw [List.get?_set] at hv
    by_cases hvw : w = v
    · subst hvw
      rw [if_pos rfl, hw] at hv
      simp at hv
    · rw [if_neg hvw] at hv
      exact h5 v id hv
  · intro hc
    exact absurd (allExited_get (h6 hc) hw) (by simp)
  · intro hc
    exact absurd (allExited_get (h7 hc) hw) (by simp)
  · intro hlen
    replace hlen : (c.workers.set w .atLoop).length = 1 := hlen
    rw [List.length_set] at hlen
    show realLog (c.execLog ++ [j]) ++ heldIds (c.workers.set w .atLoop) = c.dequeued
    obtain ⟨a, ha⟩ := List.length_eq_one.mp hlen
    rw [ha] at hw ⊢
    obtain ⟨hw0, has⟩ := get?_singleton hw
    subst hw0
    subst has
    have := h8 hlen
    rw [ha] at this
    cases j with
    | real id =>
      simp [heldIds, heldSlot, realLog] at this ⊢
      rw [← this]
    | noop =>
      simpa [heldIds, heldSlot, realLog] using this

theorem inv_setCtrl {c : Config} (hi : Inv c) (k : CtrlState)
    (hk : k = .jFin → allExited c) : Inv { c with ctrl := k } := by
  obtain ⟨h1, h2, h3, h4, h5, _h6, h7, h8⟩ := hi
  exact ⟨h1, h2, h3, h4, h5, hk, h7, h8⟩

theorem inv_setBailout {c : Config} (hi : Inv c) :
    Inv { c with bailout := true, ctrl := .jJoin } := by
  obtain ⟨h1, h2, h3, h4, h5, _h6, h7, h8⟩ := hi
  exact ⟨h1, h2, h3, h4, h5, fun h => by simp at h, h7, h8⟩

theorem inv_retJoin {c : Config} (hi : Inv c) (hc : c.ctrl = .jFin) :
    Inv { c with finished := true, ctrl := .cIdle } := by
  obtain ⟨h1, h2, h3, h4, h5, h6, _h7, h8⟩ := hi
  exact ⟨h1, h2, h3, h4, h5, fun h => by simp at h, fun _ => h6 hc, h8⟩

theorem inv_setWaiter {c : Config} (hi : Inv c) (s : WaiterState) :
    Inv { c with waiter := s } := by
  obtain ⟨h1, h2, h3, h4, h5, h6, h7, h8⟩ := hi
  exact ⟨h1, h2, h3, h4, h5, h6, h7, h8⟩

/-- Every atomic step of the system preserves the pool invariant. -/
theorem inv_step {env : Nat → Except String Nat} {c : Config} {l : Label} {c' : Config}
    (hi : Inv c) (hs : Step env c l c') : Inv c' := by
  cases hs with
  | addJob => exact inv_addJob hi
  | loopCont w hw hb => exact inv_loopCont hi hw
  | loopExit w hw hb => exact inv_loopExit hi hw
  | deqReal w j rest hw hb hq => exact inv_deqReal hi hw hq
  | deqSyn w hw hb => exact inv_deqSyn hi hw
  | complete w j hw => exact inv_complete hi hw
  | callJoin d hc hf =>
      exact inv_setCtrl hi _ (by intro h; cases d <;> simp_all)
  | joinNoop d hc hf => exact hi
  | callDtor hc hf => exact inv_setCtrl hi _ (by intro h; simp_all)
  | dtorNoop hc hf => exact hi
  | waitIdleDone hc hz => exact inv_setCtrl hi _ (by intro h; simp_all)
  | setBailout hc => exact inv_setBailout hi
  | joinedAll hc hx => exact inv_setCtrl hi _ (fun _ => hx)
  | retJoin hc => exact inv_retJoin hi hc
  | wCall hc hp => exact inv_setWaiter hi _
  | wFast hc hp => exact inv_setWaiter hi _
  | wCheckZero hc hz => exact inv_setWaiter hi _
  | wCheckPos hc hz => exact inv_setWaiter hi _
  | wBlock hc => exact inv_setWaiter hi _

theorem inv_trace {env : Nat → Except String Nat} {c : Config} {ls : List Label} {c' : Config}
    (hi : Inv c) (ht : Trace env c ls c') : Inv c' := by
  induction ht with
  | nil c => exact hi
  | cons hs ht ih => exact ih (inv_step hi hs)

/-- Every state reachable from a freshly constructed pool satisfies the
invariant. -/
theorem inv_reach {env : Nat → Except String Nat} {n : Nat} {ls : List Label} {c : Config}
    (ht : Trace env (mkConfig n) ls c) : Inv c :=
  inv_trace (inv_init n) ht

/-- In any invariant state, `jobs_left` equals the number of queued jobs
plus the number of jobs currently being executed. -/
theorem jobs_left_split {c : Config} (hi : Inv c) :
    c.jobs_left = (inFlight c : Int) + (c.queue.length : Int) := by
  have h1 := congrArg List.length hi.hqueue
  rw [List.length_append, List.length_range] at h1
  have h2 := hi.hflight
  have h3 := hi.hleft
  omega

theorem jobs_left_nonneg {c : Config} (hi : Inv c) : 0 ≤ c.jobs_left := by
  rw [jobs_left_split hi]
  positivity

/-- Classification of the steps possible while the controller is inside
the `WaitAll()` call of `JoinAll`: either the wait ends (having observed
`jobs_left ≤ 0`), or the controller stays there and in particular
`bailout = true` is not executed. -/
theorem step_jWait {env : Nat → Except String Nat} {c : Config} {l : Label} {c' : Config}
    (hs : Step env c l c') (hc : c.ctrl = .jWait) :
    (l = .waitIdleDone ∧ c.jobs_left ≤ 0 ∧ c'.ctrl = .jBail) ∨
    (c'.ctrl = .jWait ∧ l ≠ .setBailout ∧ l ≠ .waitIdleDone) := by
  cases hs <;> simp_all [addJobFn, completeFn]

/-- The controller phases strictly between entering `JoinAll`'s body and
executing `finished = true`. -/
def preJoin (k : CtrlState) : Prop := k = .jWait ∨ k = .jBail ∨ k = .jJoin

/-- Classification of the steps possible while the controller is inside
`JoinAll`'s body and has not yet joined the workers: either the join loop
completes (which requires every worker to have exited), or the controller
has still not reached `finished = true`. -/
theorem step_preJoin {env : Nat → Except String Nat} {c : Config} {l : Label} {c' : Config}
    (hs : Step env c l c') (hc : preJoin c.ctrl) :
    (l = .joinedAll ∧ c.ctrl = .jJoin ∧ allExited c ∧ c'.ctrl = .jFin) ∨
    (preJoin c'.ctrl ∧ l ≠ .retJoin ∧ l ≠ .joinedAll) := by
  cases hs <;> simp_all [preJoin, addJobFn, completeFn] <;> assumption

/-- In any run starting inside the `WaitAll()` call of `JoinAll`, if
`bailout = true` is ever executed then the wait ended strictly before it,
at a moment when `jobs_left` had been observed `≤ 0`. -/
theorem trace_wait_before_bail {env : Nat → Except String Nat} {c : Config}
    {ls : List Label} {c' : Config} (ht : Trace env c ls c') :
    c.ctrl = .jWait → .setBailout ∈ ls →
    ∃ ls1 ls2 c1, ls = ls1 ++ .waitIdleDone :: ls2 ∧ Trace env c ls1 c1 ∧
      c1.ctrl = .jWait ∧ c1.jobs_left ≤ 0 ∧ .setBailout ∉ ls1 := by
  induction ht with
  | nil c => intro _ hmem; simp at hmem
  | @cons c c1 c'' l ls hs ht ih =>
    intro hc hmem
    rcases step_jWait hs hc with ⟨hl, hz, _⟩ | ⟨hc', hne, hnw⟩
    · subst hl
      exact ⟨[], _, _, rfl, .nil _, hc, hz, by simp⟩
    · have hmem' : Label.setBailout ∈ ls := by
        rcases List.mem_cons.mp hmem with h | h
        · exact absurd h.symm hne
        · exact h
      obtain ⟨ls1, ls2, c1, hsplit, ht1, hc1, hz1, hnot1⟩ := ih hc' hmem'
      refine ⟨_ :: ls1, ls2, c1, by rw [hsplit, List.cons_append], .cons hs ht1, hc1, hz1, ?_⟩
      intro hbad
      rcases List.mem_cons.mp hbad with h | h
      · exact hne h.symm
      · exact hnot1 h

/-- In any run starting inside `JoinAll`'s body (before the join loop has
completed), if the `finished = true` return step is ever executed then the
join loop completed strictly before it, at a moment when every worker had
exited. -/
theorem trace_join_before_ret {env : Nat → Except String Nat} {c : Config}
    {ls : List Label} {c' : Config} (ht : Trace env c ls c') :
    preJoin c.ctrl → .retJoin ∈ ls →
    ∃ ls1 ls2 c1, ls = ls1 ++ .joinedAll :: ls2 ∧ Trace env c ls1 c1 ∧
      allExited c1 ∧ .retJoin ∉ ls1 := by
  induction ht with
  | nil c => intro _ hmem; simp at hmem
  | @cons c c1 c'' l ls hs ht ih =>
    intro hc hmem
    rcases step_preJoin hs hc with ⟨hl, _, hx, _⟩ | ⟨hc', hne, hnj⟩
    · subst hl
      exact ⟨[], _, _, rfl, .nil _, hx, by simp⟩
    · have hmem' : Label.retJoin ∈ ls := by
        rcases List.mem_cons.mp hmem with h | h
        · exact absurd h.symm hne
        · exact h
      obtain ⟨ls1, ls2, c1, hsplit, ht1, hx1, hnot1⟩ := ih hc' hmem'
      refine ⟨_ :: ls1, ls2, c1, by rw [hsplit, List.cons_append], .cons hs ht1, hx1, ?_⟩
      intro hbad
      rcases List.mem_cons.mp hbad with h | h
      · exact hne h.symm
      · exact hnot1 h

/-- Once every worker has exited its loop, no step can revive one: workers
stay exited, and no dequeue or job execution ever happens again. -/
theorem step_allExited {env : Nat → Except String Nat} {c : Config} {l : Label} {c' : Config}
    (hs : Step env c l c') (hx : allExited c) :
    allExited c' ∧ (∀ w j, l ≠ .deqReal w j) ∧ (∀ w, l ≠ .complete w) ∧
      (∀ w, l ≠ .deqSyn w) := by
  cases hs with
  | loopCont w hw hb => exact absurd (allExited_get hx hw) (by simp)
  | loopExit w hw hb => exact absurd (allExited_get hx hw) (by simp)
  | deqReal w j rest hw hb hq => exact absurd (allExited_get hx hw) (by simp)
  | deqSyn w hw hb => exact absurd (allExited_get hx hw) (by simp)
  | complete w j hw => exact absurd (allExited_get hx hw) (by simp)
  | _ => exact ⟨hx, by simp, by simp, by simp⟩

/-- Trace version of `step_allExited`: after all workers have exited, no
run contains a dequeue or an execution step. -/
theorem trace_allExited {env : Nat → Except String Nat} {c : Config}
    {ls : List Label} {c' : Config} (ht : Trace env c ls c') (hx : allExited c) :
    allExited c' ∧ (∀ w j, (Label.deqReal w j) ∉ ls) ∧ (∀ w, (Label.complete w) ∉ ls) := by
  induction ht with
  | nil c => exact ⟨hx, by simp, by simp⟩
  | cons hs ht ih =>
    obtain ⟨hx', hnd, hnc, _⟩ := step_allExited hs hx
    obtain ⟨hx'', hnd', hnc'⟩ := ih hx'
    refine ⟨hx'', ?_, ?_⟩
    · intro w j hmem
      rcases List.mem_cons.mp hmem with h | h
      · exact hnd w j h.symm
      · exact hnd' w j h
    · intro w hmem
      rcases List.mem_cons.mp hmem with h | h
      · exact hnc w h.symm
      · exact hnc' w h

/-- A configuration in which the pool is idle (`jobs_left = 0`, empty
queue, no shutdown in progress), every worker sits in its loop or in the
queue wait, and the `WaitAll` client is blocked on `wait_var`. -/
def stuckIdle (c : Config) : Prop :=
  c.queue = [] ∧ c.bailout = false ∧ c.ctrl = .cIdle ∧ c.finished = false ∧
    (∀ w ∈ c.workers, w = .atLoop ∨ w = .inNext) ∧ c.waiter = .wBlocked ∧
    c.jobs_left = 0

/-- Labels of steps taken by the pool itself (workers) rather than by an
external client calling `AddJob`, `JoinAll`, `WaitAll` or the destructor. -/
def internalLabel : Label → Prop
  | .addJob => False
  | .callJoin _ => False
  | .joinNoop _ => False
  | .callDtor => False
  | .dtorNoop => False
  | _ => True

/-- From a `stuckIdle` configuration, no internal step can ever wake the
blocked `WaitAll` client: `wait_var.notify_one()` is executed only by the
`--jobs_left`/notify pair at the end of a job, and no job can ever
complete again without new external calls. -/
theorem step_stuckIdle {env : Nat → Except String Nat} {c : Config} {l : Label} {c' : Config}
    (hs : Step env c l c') (hq : stuckIdle c) (hl : internalLabel l) :
    stuckIdle c' := by
  obtain ⟨hq1, hq2, hq3, hq4, hq5, hq6, hq7⟩ := hq
  cases hs with
  | addJob => exact absurd hl (by simp [internalLabel])
  | callJoin d hc hf => exact absurd hl (by simp [internalLabel])
  | joinNoop d hc hf => exact absurd hl (by simp [internalLabel])
  | callDtor hc hf => exact absurd hl (by simp [internalLabel])
  | dtorNoop hc hf => exact absurd hl (by simp [internalLabel])
  | loopCont w hw hb =>
      refine ⟨hq1, hq2, hq3, hq4, ?_, hq6, hq7⟩
      intro s hsmem
      rcases List.mem_or_eq_of_mem_set hsmem with h | h
      · exact hq5 s h
      · exact Or.inr h
  | loopExit w hw hb => rw [hq2] at hb; cases hb
  | deqReal w j rest hw hb hjq => rw [hq1] at hjq; cases hjq
  | deqSyn w hw hb => rw [hq2] at hb; cases hb
  | complete w j hw =>
      rcases hq5 _ (List.get?_mem hw) with h | h <;> simp at h
  | waitIdleDone hc hz => rw [hq3] at hc; cases hc
  | setBailout hc => rw [hq3] at hc; cases hc
  | joinedAll hc hx => rw [hq3] at hc; cases hc
  | retJoin hc => rw [hq3] at hc; cases hc
  | wCall hc hp => rw [hq6] at hc; cases hc
  | wFast hc hp => rw [hq6] at hc; cases hc
  | wCheckZero hc hz => rw [hq6] at hc; cases hc
  | wCheckPos hc hz => rw [hq6] at hc; cases hc
  | wBlock hc => rw [hq6] at hc; cases hc

/-- Trace version: with no further external calls, a `stuckIdle`
configuration stays `stuckIdle` forever — in particular the `WaitAll`
client stays blocked even though `jobs_left` is already `0`. -/
theorem trace_stuckIdle {env : Nat → Except String Nat} {c : Config}
    {ls : List Label} {c' : Config} (ht : Trace env c ls c') (hq : stuckIdle c)
    (hl : ∀ l ∈ ls, internalLabel l) : stuckIdle c' := by
  induction ht with
  | nil c => exact hq
  | cons hs ht ih =>
    exact ih (step_stuckIdle hs hq (hl _ (List.mem_cons_self _ _)))
      fun l hlm => hl l (List.mem_cons_of_mem _ hlm)

/-! Concrete runs used to instantiate the theorems below. -/

/-- An environment in which every submitted callable returns normally,
callable `i` computing `i * i`. -/
def envOk : Nat → Except String Nat := fun i => Except.ok (i * i)

/-- An environment in which every submitted callable raises an error. -/
def envErr : Nat → Except String Nat := fun _ => Except.error "boom"

/-- Labels of a complete `JoinAll(false)` shutdown of a fresh one-worker
pool. -/
def shutLabels : List Label :=
  [.callJoin false, .setBailout, .loopExit 0, .joinedAll, .retJoin]

/-- The configuration of a one-worker pool after `JoinAll(false)` has
completed: `bailout` and `finished` set, the worker joined. -/
def cShut : Config where
  queue := []
  jobs_left := 0
  bailout := true
  finished := true
  threadcount := 1
  workers := [.exited]
  ctrl := .cIdle
  waiter := .wIdle
  slots := []
  nextId := 0
  dequeued := []
  synthetic := 0
  finishedJobs := 0
  execLog := []

theorem trace_shut : Trace envOk (mkConfig 1) shutLabels cShut := by
  refine .cons (.callJoin _ false rfl rfl) ?_
  refine .cons (.setBailout _ rfl) ?_
  refine .cons (.loopExit _ 0 rfl rfl) ?_
  refine .cons (.joinedAll _ rfl (by decide)) ?_
  refine .cons (.retJoin _ rfl) ?_
  exact .nil _

/-- A one-worker pool whose termination flag is set while the worker is
inside `next_job()` and two jobs are still queued. -/
def cBail : Config where
  queue := [4, 7]
  jobs_left := 2
  bailout := true
  finished := false
  threadcount := 1
  workers := [.inNext]
  ctrl := .cIdle
  waiter := .wIdle
  slots := [none, none, none, none, none, none, none, none]
  nextId := 8
  dequeued := [0, 1, 2, 3, 5, 6]
  synthetic := 0
  finishedJobs := 6
  execLog := []

/-- A one-worker pool whose worker holds submitted job `0`, about to run
it. -/
def cExec : Config where
  queue := []
  jobs_left := 1
  bailout := false
  finished := false
  threadcount := 1
  workers := [.hasJob (.real 0)]
  ctrl := .cIdle
  waiter := .wIdle
  slots := [none]
  nextId := 1
  dequeued := [0]
  synthetic := 0
  finishedJobs := 0
  execLog := []

/-- Labels of the lost-wakeup run: one job is submitted and dequeued; the
`WaitAll` client passes its `jobs_left > 0` test and evaluates the wait
predicate (reading `jobs_left = 1`); the worker then finishes the job
(`jobs_left` drops to `0`) and calls `wait_var.notify_one()` while the
client is between its predicate check and the block; the client then
blocks. -/
def lostLabels : List Label :=
  [.addJob, .loopCont 0, .deqReal 0 0, .wCall, .wCheckPos, .complete 0, .wBlock]

/-- The configuration at the end of the lost-wakeup run: the pool is
completely idle (`jobs_left = 0`, empty queue, worker back at its loop)
but the `WaitAll` client is blocked on `wait_var` with no notification
pending. -/
def cLost : Config where
  queue := []
  jobs_left := 0
  bailout := false
  finished := false
  threadcount := 1
  workers := [.atLoop]
  ctrl := .cIdle
  waiter := .wBlocked
  slots := [some (.ok 0)]
  nextId := 1
  dequeued := [0]
  synthetic := 0
  finishedJobs := 1
  execLog := [.real 0]

theorem trace_lost : Trace envOk (mkConfig 1) lostLabels cLost := by
  refine .cons (.addJob _) ?_
  refine .cons (.loopCont _ 0 rfl rfl) ?_
  refine .cons (.deqReal _ 0 0 [] rfl rfl rfl) ?_
  refine .cons (.wCall _ rfl (by decide)) ?_
  refine .cons (.wCheckPos _ rfl (by decide)) ?_
  refine .cons (.complete _ 0 (.real 0) rfl) ?_
  refine .cons (.wBlock _ rfl) ?_
  exact .nil _

/-- Labels of a run of a fresh one-worker pool executing two sequentially
submitted jobs to completion. -/
def fifoLabels : List Label :=
  [.addJob, .addJob, .loopCont 0, .deqReal 0 0, .complete 0,
   .loopCont 0, .deqReal 0 1, .complete 0]

/-- The configuration after the two-job FIFO run: both jobs dequeued and
executed in submission order. -/
def cFifo : Config where
  queue := []
  jobs_left := 0
  bailout := false
  finished := false
  threadcount := 1
  workers := [.atLoop]
  ctrl := .cIdle
  waiter := .wIdle
  slots := [some (.ok 0), some (.ok 1)]
  nextId := 2
  dequeued := [0, 1]
  synthetic := 0
  finishedJobs := 2
  execLog := [.real 0, .real 1]

theorem trace_fifo : Trace envOk (mkConfig 1) fifoLabels cFifo := by
  refine .cons (.addJob _) ?_
  refine .cons (.addJob _) ?_
  refine .cons (.loopCont _ 0 rfl rfl) ?_
  refine .cons (.deqReal _ 0 0 [1] rfl rfl rfl) ?_
  refine .cons (.complete _ 0 (.real 0) rfl) ?_
  refine .cons (.loopCont _ 0 rfl rfl) ?_
  refine .cons (.deqReal _ 0 1 [] rfl rfl rfl) ?_
  refine .cons (.complete _ 0 (.real 1) rfl) ?_
  exact .nil _

/-- A one-job trace used to instantiate the counter invariant. -/
theorem trace_one_add : Trace envOk (mkConfig 1) [.addJob] (addJobFn (mkConfig 1)) :=
  .cons (.addJob _) (.nil _)

theorem eq_range_of_append {xs ys : List Nat} {n : Nat} (h : xs ++ ys = List.range n) :
    xs = List.range xs.length := by
  have hlen : xs.length + ys.length = n := by
    have := congrArg List.length h
    simpa [List.length_append] using this
  have h2 : xs = (List.range n).take xs.length := by
    rw [← h, List.take_left]
  rw [List.take_range] at h2
  have hmin : min xs.length n = xs.length := by omega
  rw [hmin] at h2
  exact h2

/-! The claims. -/

/-- Claim C1, counterexample.  The claim states that after the pool has
completed shutdown (`finished` reached), `AddJob` fails with a
`PoolClosed` error and the callable is never enqueued.  In the code
`AddJob` contains no check at all: on the concretely reachable
post-shutdown configuration `cShut` it succeeds and appends the job to
the queue (and bumps `jobs_left`). -/
theorem C1_counterexample_submit_after_shutdown_is_enqueued :
    Trace envOk (mkConfig 1) shutLabels cShut ∧ cShut.finished = true ∧
    Step envOk cShut .addJob (addJobFn cShut) ∧
    (addJobFn cShut).queue = [0] ∧ (addJobFn cShut).jobs_left = 1 :=
  ⟨trace_shut, rfl, .addJob cShut, rfl, rfl⟩

/-- Claim C1, amended: after shutdown has completed (`finished = true`),
a subsequent `AddJob` is not rejected — the code performs no `PoolClosed`
check, so the job is silently appended to the queue and `jobs_left` is
incremented — but the job is never dequeued and never executed, because
every worker thread has already exited its loop. -/
theorem C1_amended_submit_after_shutdown_enqueues_but_never_runs
    (env : Nat → Except String Nat) (n : Nat) (ls : List Label) (c : Config)
    (ht : Trace env (mkConfig n) ls c) (hf : c.finished = true) :
    Step env c .addJob (addJobFn c) ∧
    (addJobFn c).queue = c.queue ++ [c.nextId] ∧
    (addJobFn c).jobs_left = c.jobs_left + 1 ∧
    ∀ ls' c', Trace env (addJobFn c) ls' c' →
      (∀ w j, (Label.deqReal w j) ∉ ls') ∧ (∀ w, (Label.complete w) ∉ ls') := by
  have hx : allExited c := (inv_reach ht).hdone hf
  have hx' : allExited (addJobFn c) := hx
  refine ⟨.addJob c, rfl, rfl, ?_⟩
  intro ls' c' ht'
  obtain ⟨_, hnd, hnc⟩ := trace_allExited ht' hx'
  exact ⟨hnd, hnc⟩

/-- Witness for claim C1's amended theorem, at the concrete post-shutdown
pool `cShut`. -/
theorem C1_amended_witness :
    Step envOk cShut .addJob (addJobFn cShut) ∧
    (addJobFn cShut).queue = cShut.queue ++ [cShut.nextId] ∧
    (addJobFn cShut).jobs_left = cShut.jobs_left + 1 ∧
    ∀ ls' c', Trace envOk (addJobFn cShut) ls' c' →
      (∀ w j, (Label.deqReal w j) ∉ ls') ∧ (∀ w, (Label.complete w) ∉ ls') :=
  C1_amended_submit_after_shutdown_enqueues_but_never_runs envOk 1 shutLabels cShut
    trace_shut rfl

/-- Claim C2, counterexample.  The claim states that constructing with a
thread count `≤ 0` fails with `InvalidConfiguration`.  The constructor
body performs no validation: `new ThreadPool(0)` succeeds and yields a
pool with zero workers whose `Size()` returns `0`. -/
theorem C2_counterexample_zero_thread_construction_succeeds :
    threadPoolNew 0 = some (mkConfig 0) ∧ Size (mkConfig 0) = 0 ∧
    (mkConfig 0).workers = [] :=
  ⟨rfl, rfl, rfl⟩

/-- Claim C2, amended: construction performs no thread-count validation.
For every `n ≥ 0` — including `0` — construction succeeds, creates
`n` worker threads and `Size()` returns `n`; for negative `n` the
construction aborts, but through the length error of
`threads.resize(threadcount)` after the `int → size_t` conversion, not
through any `InvalidConfiguration` check. -/
theorem C2_amended_construction_without_validation (n : Int) (hn : 0 ≤ n) :
    threadPoolNew n = some (mkConfig n.toNat) ∧
    ((Size (mkConfig n.toNat) : Int) = n) ∧
    (mkConfig n.toNat).workers.length = n.toNat ∧
    (∀ m : Int, m < 0 → threadPoolNew m = none) := by
  refine ⟨by simp [threadPoolNew, hn], ?_, by simp [mkConfig], ?_⟩
  · simp [Size, mkConfig]
    omega
  · intro m hm
    simp [threadPoolNew]
    omega

/-- Witness for claim C2's amended theorem at `n = 4`: `new(4)` succeeds
with `size() = 4`. -/
theorem C2_amended_witness :
    threadPoolNew 4 = some (mkConfig (4 : Int).toNat) ∧
    ((Size (mkConfig (4 : Int).toNat) : Int) = 4) ∧
    (mkConfig (4 : Int).toNat).workers.length = (4 : Int).toNat ∧
    (∀ m : Int, m < 0 → threadPoolNew m = none) :=
  C2_amended_construction_without_validation 4 (by decide)

/-- Claim C3: in every reachable pool state, `jobs_left` equals the
number of jobs accepted by `AddJob` (`nextId`) plus the number of
synthetic no-op jobs injected during shutdown, minus the number of jobs
whose execution finished (synthetic ones included), and is never
negative; and every single step preserves this. -/
theorem C3_remaining_counter_accounting (env : Nat → Except String Nat) (n : Nat)
    (ls : List Label) (c : Config) (ht : Trace env (mkConfig n) ls c) :
    (c.jobs_left = (c.nextId : Int) + (c.synthetic : Int) - (c.finishedJobs : Int) ∧
     0 ≤ c.jobs_left) ∧
    ∀ l c', Step env c l c' →
      (c'.jobs_left = (c'.nextId : Int) + (c'.synthetic : Int) - (c'.finishedJobs : Int) ∧
       0 ≤ c'.jobs_left) := by
  have hi := inv_reach ht
  refine ⟨⟨hi.hleft, jobs_left_nonneg hi⟩, ?_⟩
  intro l c' hs
  have hi' := inv_step hi hs
  exact ⟨hi'.hleft, jobs_left_nonneg hi'⟩

/-- Witness for claim C3 after one `AddJob` on a fresh one-worker pool. -/
theorem C3_witness :
    ((addJobFn (mkConfig 1)).jobs_left
        = ((addJobFn (mkConfig 1)).nextId : Int) + ((addJobFn (mkConfig 1)).synthetic : Int)
          - ((addJobFn (mkConfig 1)).finishedJobs : Int) ∧
      0 ≤ (addJobFn (mkConfig 1)).jobs_left) ∧
    ∀ l c', Step envOk (addJobFn (mkConfig 1)) l c' →
      (c'.jobs_left = (c'.nextId : Int) + (c'.synthetic : Int) - (c'.finishedJobs : Int) ∧
       0 ≤ c'.jobs_left) :=
  C3_remaining_counter_accounting envOk 1 [.addJob] (addJobFn (mkConfig 1)) trace_one_add

/-- Claim C4: a `next_job()` call that observes `bailout` set pops
nothing — the queue is left unchanged — and instead returns the synthetic
no-op job after incrementing `jobs_left` by one; a real dequeue is
impossible in that state. -/
theorem C4_bailout_dequeue_injects_noop (env : Nat → Except String Nat) (c : Config)
    (w : Nat) (hb : c.bailout = true) (hw : c.workers.get? w = some .inNext) :
    Step env c (.deqSyn w)
      { c with jobs_left := c.jobs_left + 1,
               workers := c.workers.set w (.hasJob .noop),
               synthetic := c.synthetic + 1 } ∧
    ({ c with jobs_left := c.jobs_left + 1,
              workers := c.workers.set w (.hasJob .noop),
              synthetic := c.synthetic + 1 } : Config).queue = c.queue ∧
    ({ c with jobs_left := c.jobs_left + 1,
              workers := c.workers.set w (.hasJob .noop),
              synthetic := c.synthetic + 1 } : Config).jobs_left = c.jobs_left + 1 ∧
    (c.workers.set w (.hasJob .noop)).get? w = some (.hasJob .noop) ∧
    ∀ j c', ¬ Step env c (.deqReal w j) c' := by
  obtain ⟨hlt, -⟩ := List.get?_eq_some.mp hw
  refine ⟨.deqSyn c w hw hb, rfl, rfl, List.get?_set_eq_of_lt _ hlt, ?_⟩
  intro j c' hs
  cases hs <;> simp_all

/-- Witness for claim C4, at the concrete bailing-out pool `cBail`, with
two jobs still queued. -/
theorem C4_witness :
    Step envOk cBail (.deqSyn 0)
      { cBail with jobs_left := cBail.jobs_left + 1,
                   workers := cBail.workers.set 0 (.hasJob .noop),
                   synthetic := cBail.synthetic + 1 } ∧
    ({ cBail with jobs_left := cBail.jobs_left + 1,
                  workers := cBail.workers.set 0 (.hasJob .noop),
                  synthetic := cBail.synthetic + 1 } : Config).queue = cBail.queue ∧
    ({ cBail with jobs_left := cBail.jobs_left + 1,
                  workers := cBail.workers.set 0 (.hasJob .noop),
                  synthetic := cBail.synthetic + 1 } : Config).jobs_left = cBail.jobs_left + 1 ∧
    (cBail.workers.set 0 (.hasJob .noop)).get? 0 = some (.hasJob .noop) ∧
    ∀ j c', ¬ Step envOk cBail (.deqReal 0 j) c' :=
  C4_bailout_dequeue_injects_noop envOk cBail 0 rfl rfl

/-- Claim C5: `JoinAll(WaitForAll)` on a running pool (`finished` false):
with `WaitForAll = true` it first enters `WaitAll()` and — by the second
and third conjuncts — can reach the `bailout = true` statement only
through a step that exits the wait having observed `jobs_left ≤ 0`
(with the invariant of C3, exactly `0`); with `WaitForAll = false` it
proceeds to `bailout = true` directly, whose step has no condition on
`jobs_left` or the queue; in both cases the `finished = true` return step
can only happen after the join loop completed, at a moment when every
worker thread had exited. -/
theorem C5_shutdown_drain_then_flag_then_join (env : Nat → Except String Nat) :
    (∀ c, c.ctrl = .cIdle → c.finished = false →
        Step env c (.callJoin true) { c with ctrl := .jWait }) ∧
    (∀ c c', Step env c .waitIdleDone c' →
        c.ctrl = .jWait ∧ c.jobs_left ≤ 0 ∧ c' = { c with ctrl := .jBail }) ∧
    (∀ c ls c', Trace env c ls c' → c.ctrl = .jWait → .setBailout ∈ ls →
        ∃ ls1 ls2 c1, ls = ls1 ++ .waitIdleDone :: ls2 ∧ Trace env c ls1 c1 ∧
          c1.ctrl = .jWait ∧ c1.jobs_left ≤ 0 ∧ .setBailout ∉ ls1) ∧
    (∀ c, c.ctrl = .cIdle → c.finished = false →
        Step env c (.callJoin false) { c with ctrl := .jBail }) ∧
    (∀ c, c.ctrl = .jBail →
        Step env c .setBailout { c with bailout := true, ctrl := .jJoin }) ∧
    (∀ c c', Step env c .joinedAll c' → allExited c ∧ c' = { c with ctrl := .jFin }) ∧
    (∀ c ls c', Trace env c ls c' → preJoin c.ctrl → .retJoin ∈ ls →
        ∃ ls1 ls2 c1, ls = ls1 ++ .joinedAll :: ls2 ∧ Trace env c ls1 c1 ∧
          allExited c1 ∧ .retJoin ∉ ls1) ∧
    (∀ c c', Step env c .retJoin c' →
        c.ctrl = .jFin ∧ c' = { c with finished := true, ctrl := .cIdle }) := by
  refine ⟨?_, ?_, ?_, ?_, ?_, ?_, ?_, ?_⟩
  · intro c hc hf
    exact .callJoin c true hc hf
  · intro c c' hs
    cases hs with
    | waitIdleDone hc hz => exact ⟨hc, hz, rfl⟩
  · intro c ls c' ht hc hmem
    exact trace_wait_before_bail ht hc hmem
  · intro c hc hf
    exact .callJoin c false hc hf
  · intro c hc
    exact .setBailout c hc
  · intro c c' hs
    cases hs with
    | joinedAll hc hx => exact ⟨hx, rfl⟩
  · intro c ls c' ht hc hmem
    exact trace_join_before_ret ht hc hmem
  · intro c c' hs
    cases hs with
    | retJoin hc => exact ⟨hc, rfl⟩

/-- Claim C6: on a pool whose shutdown has completed (`finished` true), a
second `JoinAll` call — with either `WaitForAll` value — takes the
skip branch of `if (!finished)`: it is enabled, returns normally, changes
no state, and the joining body (modelled by the `callJoin` entry step)
cannot be taken. -/
theorem C6_second_shutdown_is_noop (env : Nat → Except String Nat) (c : Config)
    (d : Bool) (hf : c.finished = true) :
    (c.ctrl = .cIdle → Step env c (.joinNoop d) c) ∧
    (∀ c', Step env c (.joinNoop d) c' → c' = c) ∧
    (∀ c', ¬ Step env c (.callJoin d) c') := by
  refine ⟨fun hc => .joinNoop c d hc hf, ?_, ?_⟩
  · intro c' hs
    cases hs with
    | joinNoop hc hf' => rfl
  · intro c' hs
    cases hs with
    | callJoin hd h1 h2 => rw [hf] at h2; simp at h2

/-- Witness for claim C6 at the concrete post-shutdown pool `cShut`. -/
theorem C6_witness :
    (cShut.ctrl = .cIdle → Step envOk cShut (.joinNoop true) cShut) ∧
    (∀ c', Step envOk cShut (.joinNoop true) c' → c' = cShut) ∧
    (∀ c', ¬ Step envOk cShut (.callJoin true) c') :=
  C6_second_shutdown_is_noop envOk cShut true rfl

/-- Claim C7: in every reachable state, the ghost list of dequeued jobs
is exactly `0, 1, 2, …` — i.e. jobs submitted (sequentially, through the
single `queue_mutex`-serialised `AddJob`) are dequeued in submission
order; and with one worker the completion log of real jobs is that same
sequence, so job `A` finishes before job `B` starts whenever `A` was
submitted first. -/
theorem C7_fifo_dispatch_order (env : Nat → Except String Nat) (n : Nat)
    (ls : List Label) (c : Config) (ht : Trace env (mkConfig n) ls c) :
    c.dequeued = List.range c.dequeued.length ∧
    (c.workers.length = 1 →
      realLog c.execLog = List.range (realLog c.execLog).length) := by
  have hi := inv_reach ht
  have hd : c.dequeued = List.range c.dequeued.length := eq_range_of_append hi.hqueue
  refine ⟨hd, ?_⟩
  intro h1
  have h8 := hi.hone h1
  rw [hd] at h8
  exact eq_range_of_append h8

/-- Witness for claim C7: the two-job run on a one-worker pool dequeues
and executes `0` then `1`. -/
theorem C7_witness :
    cFifo.dequeued = List.range cFifo.dequeued.length ∧
    (cFifo.workers.length = 1 →
      realLog cFifo.execLog = List.range (realLog cFifo.execLog).length) :=
  C7_fifo_dispatch_order envOk 1 fifoLabels cFifo trace_fifo

/-- Claim C8: executing submitted job `id` stores the callable's outcome
`env id` — its value or its captured error — into that job's future slot,
where only `get()` on that handle reads it; every other slot is
untouched; the worker returns to the top of its loop, and `jobs_left`
decrement and `wait_var` notification are performed; and all of these
effects except the written slot are identical for any two outcome
environments (in particular for a failing and a succeeding callable). -/
theorem C8_job_failure_confined_to_result_slot
    (env env' : Nat → Except String Nat) (c : Config) (w id : Nat)
    (hw : c.workers.get? w = some (.hasJob (.real id))) (hid : id < c.slots.length) :
    Step env c (.complete w) (completeFn env c w (.real id)) ∧
    futureGet (completeFn env c w (.real id)) id = some (env id) ∧
    (∀ k, k ≠ id → futureGet (completeFn env c w (.real id)) k = futureGet c k) ∧
    (completeFn env c w (.real id)).jobs_left = c.jobs_left - 1 ∧
    (completeFn env c w (.real id)).waiter = wakeOne c.waiter ∧
    (completeFn env c w (.real id)).workers.get? w = some .atLoop ∧
    (completeFn env' c w (.real id)).jobs_left = (completeFn env c w (.real id)).jobs_left ∧
    (completeFn env' c w (.real id)).waiter = (completeFn env c w (.real id)).waiter ∧
    (completeFn env' c w (.real id)).workers = (completeFn env c w (.real id)).workers ∧
    (completeFn env' c w (.real id)).queue = (completeFn env c w (.real id)).queue := by
  obtain ⟨hlt, -⟩ := List.get?_eq_some.mp hw
  refine ⟨.complete c w _ hw, ?_, ?_, rfl, rfl, ?_, rfl, rfl, rfl, rfl⟩
  · show futureGet { c with
        workers := c.workers.set w .atLoop
        jobs_left := c.jobs_left - 1
        slots := c.slots.set id (some (env id))
        finishedJobs := c.finishedJobs + 1
        execLog := c.execLog ++ [.real id]
        waiter := wakeOne c.waiter } id = some (env id)
    simp only [futureGet]
    rw [List.get?_set_eq_of_lt _ hid]
  · intro k hk
    show futureGet { c with
        workers := c.workers.set w .atLoop
        jobs_left := c.jobs_left - 1
        slots := c.slots.set id (some (env id))
        finishedJobs := c.finishedJobs + 1
        execLog := c.execLog ++ [.real id]
        waiter := wakeOne c.waiter } k = futureGet c k
    simp only [futureGet]
    rw [List.get?_set_ne _ _ fun h => hk h.symm]
  · exact List.get?_set_eq_of_lt _ hlt

/-- Witness for claim C8, at the concrete pool `cExec` whose worker holds
job `0`, once with every callable succeeding and once with every callable
raising an error. -/
theorem C8_witness :
    Step envErr cExec (.complete 0) (completeFn envErr cExec 0 (.real 0)) ∧
    futureGet (completeFn envErr cExec 0 (.real 0)) 0 = some (envErr 0) ∧
    (∀ k, k ≠ 0 → futureGet (completeFn envErr cExec 0 (.real 0)) k = futureGet cExec k) ∧
    (completeFn envErr cExec 0 (.real 0)).jobs_left = cExec.jobs_left - 1 ∧
    (completeFn envErr cExec 0 (.real 0)).waiter = wakeOne cExec.waiter ∧
    (completeFn envErr cExec 0 (.real 0)).workers.get? 0 = some .atLoop ∧
    (completeFn envOk cExec 0 (.real 0)).jobs_left = (completeFn envErr cExec 0 (.real 0)).jobs_left ∧
    (completeFn envOk cExec 0 (.real 0)).waiter = (completeFn envErr cExec 0 (.real 0)).waiter ∧
    (completeFn envOk cExec 0 (.real 0)).workers = (completeFn envErr cExec 0 (.real 0)).workers ∧
    (completeFn envOk cExec 0 (.real 0)).queue = (completeFn envErr cExec 0 (.real 0)).queue :=
  C8_job_failure_confined_to_result_slot envErr envOk cExec 0 0 rfl (by decide)

/-- Claim C9: the code violates the claimed synchronisation.  `Task()`
executes `--jobs_left; wait_var.notify_one();` without holding
`wait_mutex`, so the notification can fire in the window between a
`WaitAll` caller's predicate check (which read `jobs_left = 1`) and its
block: the concrete run `lostLabels` reaches the configuration `cLost`
in which the pool is idle (`jobs_left = 0`) yet the caller is blocked on
`wait_var`, and — as long as no further external call happens — no
subsequent internal step can ever wake it: the zero-crossing wakeup is
lost. -/
theorem C9_lost_wakeup_in_wait_all :
    Trace envOk (mkConfig 1) lostLabels cLost ∧
    cLost.jobs_left = 0 ∧ cLost.waiter = .wBlocked ∧
    ∀ ls c', Trace envOk cLost ls c' → (∀ l ∈ ls, internalLabel l) →
      c'.waiter = .wBlocked := by
  refine ⟨trace_lost, rfl, rfl, ?_⟩
  intro ls c' ht hl
  have hq : stuckIdle cLost := by
    refine ⟨rfl, rfl, rfl, rfl, ?_, rfl, rfl⟩
    intro w hw
    simp [cLost] at hw
    simp [hw]
  obtain ⟨-, -, -, -, -, hwend, -⟩ := trace_stuckIdle ht hq hl
  exact hwend

/-- Claim C10: the destructor body is exactly `JoinAll();` with the
defaulted `WaitForAll = true`: its entry step is possible precisely when
a `JoinAll(true)` entry step is, with the same effect; on a pool not yet
shut down it enters `WaitAll()`, can set the termination flag only after
a wait-exit step that observed `jobs_left ≤ 0`, and can reach the final
`finished = true` only after the join loop completed with every worker
exited. -/
theorem C10_destructor_is_draining_shutdown (env : Nat → Except String Nat) :
    (∀ c c', Step env c .callDtor c' ↔ Step env c (.callJoin true) c') ∧
    (∀ c c', Step env c .callDtor c' →
        c.ctrl = .cIdle ∧ c.finished = false ∧ c' = { c with ctrl := .jWait }) ∧
    (∀ c ls c', Trace env c ls c' → c.ctrl = .jWait → .setBailout ∈ ls →
        ∃ ls1 ls2 c1, ls = ls1 ++ .waitIdleDone :: ls2 ∧ Trace env c ls1 c1 ∧
          c1.ctrl = .jWait ∧ c1.jobs_left ≤ 0 ∧ .setBailout ∉ ls1) ∧
    (∀ c ls c', Trace env c ls c' → preJoin c.ctrl → .retJoin ∈ ls →
        ∃ ls1 ls2 c1, ls = ls1 ++ .joinedAll :: ls2 ∧ Trace env c ls1 c1 ∧
          allExited c1 ∧ .retJoin ∉ ls1) := by
  refine ⟨?_, ?_, ?_, ?_⟩
  · intro c c'
    constructor
    · intro hs
      cases hs with
      | callDtor hc hf => exact .callJoin c true hc hf
    · intro hs
      cases hs with
      | callJoin hd h1 h2 => exact .callDtor c h1 h2
  · intro c c' hs
    cases hs with
    | callDtor hc hf => exact ⟨hc, hf, rfl⟩
  · intro c ls c' ht hc hmem
    exact trace_wait_before_bail ht hc hmem
  · intro c ls c' ht hc hmem
    exact trace_join_before_ret ht hc hmem

end ThreadPoolModel
